import Mathlib

/-!
# Verification of the HotMic session controller and history handling

Shallow embedding of `voice_type.py` (HotMic — voice dictation overlay).
Python strings are modelled as `List Char`; the history file is modelled as
the list of its physical lines (each line without its terminating newline,
which `append_to_history_file` always writes and the loader strips).
Side effects (overlay updates, engine calls, output sinks, worker spawns)
are modelled as explicit effect lists returned next to the new state.
-/

namespace HotMic

/-- `Status` enum from `voice_type.py` (IDLE / RECORDING / PROCESSING). -/
inductive Status where
  | IDLE
  | RECORDING
  | PROCESSING
deriving DecidableEq, Repr

/-- Overlay text messages the controller can display.  Each constructor
stands for one literal (or f-string) in the source:
`loadingModels` = "Loading Whisper models…",
`readyPrompt` = "Ready — \x7bhotkey\x7d to dictate",
`listening` = "Listening…",
`stillLoading` = "Still loading models, please wait…",
`noSpeech` = "(no speech detected) — \x7bhotkey\x7d to dictate",
`live t` = live transcription text `t`. -/
inductive Msg where
  | loadingModels
  | readyPrompt
  | listening
  | stillLoading
  | noSpeech
  | live (t : List Char)
deriving DecidableEq, Repr

/-- Observable side effects of the controller, in program order.
`overlayUpdate text status autoPaste` models `Overlay.update` with its three
optional keyword arguments. -/
inductive Effect where
  | overlayUpdate (text : Option Msg) (status : Option Status) (autoPaste : Option Bool)
  | appendHistoryFile (text : List Char)
  | pushHistory (text : List Char)
  | pasteToActiveWindow (text : List Char)
  | engineStart
  | engineStop
  | engineGetText
  | spawnStartWorker
  | spawnStopWorker
deriving DecidableEq, Repr

/-- The controller's mutable fields: `HotMic._is_recording`,
`HotMic._is_processing`, `HotMic.auto_paste`, and whether the
`_recorder_ready` event has been set. -/
structure CtrlState where
  isRecording : Bool
  isProcessing : Bool
  autoPaste : Bool
  recorderReady : Bool
deriving DecidableEq, Repr

/-- Initial controller state from `HotMic.__init__`: both session flags are
False, `auto_paste` comes from the CLI arguments, and the recorder-ready
event is initially unset. -/
def initState (autoPaste : Bool) : CtrlState :=
  { isRecording := false, isProcessing := false
    autoPaste := autoPaste, recorderReady := false }

/-- Python whitespace characters stripped by `str.strip()` (ASCII subset). -/
def isPySpace (c : Char) : Bool :=
  c == ' ' || c == '\t' || c == '\n' || c == '\r' || c == '\x0b' || c == '\x0c'

/-- Python `str.strip()`: drop leading and trailing whitespace. -/
def pyStrip (l : List Char) : List Char :=
  ((l.dropWhile isPySpace).reverse.dropWhile isPySpace).reverse

/-- `HotMic._toggle_recording`: under the lock, return immediately if
processing; otherwise flip recording off→processing (spawning the stop
worker) or idle→recording (spawning the start worker). -/
def toggleRecording (s : CtrlState) : CtrlState × List Effect :=
  if s.isProcessing then
    (s, [])
  else if s.isRecording then
    ({ s with isRecording := false, isProcessing := true }, [.spawnStopWorker])
  else
    ({ s with isRecording := true }, [.spawnStartWorker])

/-- `HotMic._start_recording` (the start worker): if the recorder is not
ready, show the still-loading message, clear `_is_recording` and return
without calling `recorder.start()`; otherwise show "Listening…" with
status RECORDING and start the engine. -/
def startRecordingWorker (s : CtrlState) : CtrlState × List Effect :=
  if !s.recorderReady then
    ({ s with isRecording := false }, [.overlayUpdate (some .stillLoading) none none])
  else
    (s, [.overlayUpdate (some .listening) (some .RECORDING) none, .engineStart])

/-- `HotMic._stop_recording` (the stop worker): show status PROCESSING,
stop the engine and request the final text. -/
def stopRecordingWorker (s : CtrlState) : CtrlState × List Effect :=
  (s, [.overlayUpdate none (some .PROCESSING) none, .engineStop, .engineGetText])

/-- `HotMic._on_final_text`: strip the text, clear `_is_processing`; an
empty result shows the no-speech message with status IDLE and returns;
otherwise append to the history file, push to the overlay history, show
status IDLE, and paste if `auto_paste` is set at this moment. -/
def onFinalText (s : CtrlState) (text : List Char) : CtrlState × List Effect :=
  let t := pyStrip text
  let s2 := { s with isProcessing := false }
  if t.isEmpty then
    (s2, [.overlayUpdate (some .noSpeech) (some .IDLE) none])
  else
    (s2, [.appendHistoryFile t, .pushHistory t,
          .overlayUpdate none (some .IDLE) none]
         ++ (if s.autoPaste then [.pasteToActiveWindow t] else []))

/-- `HotMic._toggle_auto_paste`: flip the flag and report it to the overlay. -/
def toggleAutoPaste (s : CtrlState) : CtrlState × List Effect :=
  let s2 := { s with autoPaste := !s.autoPaste }
  (s2, [.overlayUpdate none none (some s2.autoPaste)])

/-- `HotMic._init_recorder` completing: sets the `_recorder_ready` event and
shows the ready prompt with status IDLE. -/
def recorderReadyEvent (s : CtrlState) : CtrlState × List Effect :=
  ({ s with recorderReady := true },
   [.overlayUpdate (some .readyPrompt) (some .IDLE) none])

/-- Events that mutate the controller's flag state: hotkey toggles, the two
workers running, the final-text callback, and recorder initialization
completing. -/
inductive Ev where
  | toggle
  | startWorker
  | stopWorker
  | finalText (t : List Char)
  | togglePaste
  | recorderReady
deriving DecidableEq, Repr

/-- One step of the controller's flag state under an event. -/
def step (s : CtrlState) : Ev → CtrlState
  | .toggle => (toggleRecording s).1
  | .startWorker => (startRecordingWorker s).1
  | .stopWorker => (stopRecordingWorker s).1
  | .finalText t => (onFinalText s t).1
  | .togglePaste => (toggleAutoPaste s).1
  | .recorderReady => (recorderReadyEvent s).1

/-- Run the controller from the initial state over a list of events. -/
def run (autoPaste : Bool) (evs : List Ev) : CtrlState :=
  evs.foldl step (initState autoPaste)

/-- The overlay status that results from consuming a list of effects:
`Overlay._poll_queue` applies each `update` message's `status` field when it
is not None. -/
def applyStatus (st : Status) : List Effect → Status
  | [] => st
  | .overlayUpdate _ (some s2) _ :: rest => applyStatus s2 rest
  | _ :: rest => applyStatus st rest

/-! ## History ring (`Overlay._history`, a `deque(maxlen=max_history)`) -/

/-- Appending one element to a `collections.deque` with `maxlen = cap`:
when the append would exceed the capacity, the oldest elements are
discarded from the left. -/
def dequeAppend (cap : Nat) (h : List α) (x : α) : List α :=
  let h2 := h ++ [x]
  if cap < h2.length then h2.drop (h2.length - cap) else h2

/-- `Overlay.add_history`: append a `(display_timestamp, text)` pair to the
bounded history deque.  The timestamp defaults to the current `%H:%M:%S`
time; it is passed explicitly here. -/
def addHistory (cap : Nat) (h : List (List Char × List Char))
    (ts text : List Char) : List (List Char × List Char) :=
  dequeAppend cap h (ts, text)

/-! ## History file (`append_to_history_file` / `load_history_file`) -/

/-- Python `line.rstrip(chr 10)`: drop all trailing newline characters. -/
def rstripNewlines (l : List Char) : List Char :=
  (l.reverse.dropWhile (· == '\n')).reverse

/-- Shape of the timestamp group of `HISTORY_LINE_RE`:
`\d\x7b4\x7d-\d\x7b2\x7d-\d\x7b2\x7d \d\x7b2\x7d:\d\x7b2\x7d:\d\x7b2\x7d`
(19 characters; `\d` modelled as an ASCII digit). -/
def tsShape : List Char → Bool
  | [y1, y2, y3, y4, d1, mo1, mo2, d2, da1, da2, sp, h1, h2, c1, mi1, mi2, c2, se1, se2] =>
      y1.isDigit && y2.isDigit && y3.isDigit && y4.isDigit && d1 == '-' &&
      mo1.isDigit && mo2.isDigit && d2 == '-' && da1.isDigit && da2.isDigit &&
      sp == ' ' && h1.isDigit && h2.isDigit && c1 == ':' && mi1.isDigit &&
      mi2.isDigit && c2 == ':' && se1.isDigit && se2.isDigit
  | _ => false

/-- `HISTORY_LINE_RE` = `^\[(ts)\] (.+)$` on a newline-stripped line,
rendered positionally (the regex is anchored and the timestamp group has a
fixed width of 19): character 0 is `[`, characters 1–19 are the timestamp
shape, characters 20–21 are `] `, and the remainder (group 2, matched by
`.+`) is nonempty and contains no newline. -/
def matchesHistoryLine (line : List Char) : Prop :=
  line.take 1 = ['['] ∧
  tsShape ((line.drop 1).take 19) = true ∧
  (line.drop 20).take 2 = [']', ' '] ∧
  line.drop 22 ≠ [] ∧
  (line.drop 22).any (· == '\n') = false

instance (line : List Char) : Decidable (matchesHistoryLine line) := by
  unfold matchesHistoryLine
  infer_instance

/-- One loop iteration of `load_history_file`: strip the trailing newline,
match `HISTORY_LINE_RE`, and on success return `(display_ts, text)` where
`display_ts = m.group(1).split(sp, 1)[1]` — since position 10 of the
timestamp is its only space, this is the `HH:MM:SS` part, characters 11–18
of the 19-character timestamp — and `text = m.group(2)`. -/
def parseHistoryLine (rawLine : List Char) : Option (List Char × List Char) :=
  if matchesHistoryLine (rstripNewlines rawLine) then
    some ((((rstripNewlines rawLine).drop 1).take 19).drop 11,
          (rstripNewlines rawLine).drop 22)
  else none

/-- Python `entries[-maxItems:]` for a nonnegative `maxItems`: the empty
slice start `-0` means the whole list, otherwise the last `maxItems`
elements. -/
def pyTailSlice (l : List α) (maxItems : Nat) : List α :=
  if maxItems = 0 then l else l.drop (l.length - maxItems)

/-- The history file on disk: `none` when the path does not exist, otherwise
the list of physical lines. -/
def HistFile := Option (List (List Char))

/-- `load_history_file`: return `[]` when the path does not exist, otherwise
parse every line with `HISTORY_LINE_RE` and keep `entries[-max_items:]`. -/
def loadHistoryFile (file : HistFile) (maxItems : Nat) :
    List (List Char × List Char) :=
  match file with
  | none => []
  | some lines => pyTailSlice (lines.filterMap parseHistoryLine) maxItems

/-- The line `append_to_history_file` writes:
`[` + timestamp + `] ` + text (the terminating newline is implicit in the
lines-of-file model). -/
def formatHistoryLine (ts text : List Char) : List Char :=
  '[' :: (ts ++ ']' :: ' ' :: text)

/-- `append_to_history_file`: append one formatted line to the file,
creating it if missing.  `ts` stands for `now().strftime` of
`%Y-%m-%d %H:%M:%S`, passed explicitly. -/
def appendToHistoryFile (file : HistFile) (ts text : List Char) : HistFile :=
  match file with
  | none => some [formatHistoryLine ts text]
  | some lines => some (lines ++ [formatHistoryLine ts text])

/-! ## `main` entry point -/

/-- The externally visible actions of `main`, in order. -/
inductive MainAction where
  | printUnsupported
  | chdirToScriptDir
  | parseArgs
  | constructApp
  | registerHotkeys
  | runMainLoop
deriving DecidableEq, Repr

/-- `main`: on a platform other than Windows, print an error and raise
`SystemExit(1)`; otherwise chdir, parse arguments, construct the `HotMic`
application (which registers the hotkeys) and run the event loop.  Returns
the exit code and the action trace. -/
def mainProgram (platformSystem : List Char) : Nat × List MainAction :=
  if platformSystem ≠ "Windows".toList then
    (1, [.printUnsupported])
  else
    (0, [.chdirToScriptDir, .parseArgs, .constructApp, .registerHotkeys,
         .runMainLoop])

/-! ## Helper lemmas -/

/-- The last `n` elements of a list, in order. -/
def lastN (n : Nat) (l : List α) : List α :=
  l.drop (l.length - n)

lemma onFinalText_fst (s : CtrlState) (t : List Char) :
    (onFinalText s t).1 = { s with isProcessing := false } := by
  simp only [onFinalText]
  split <;> rfl

lemma step_mutex (s : CtrlState) (e : Ev)
    (h : s.isRecording = false ∨ s.isProcessing = false) :
    (step s e).isRecording = false ∨ (step s e).isProcessing = false := by
  obtain ⟨r, p, a, d⟩ := s
  cases e with
  | toggle =>
      cases p with
      | true => simpa [step, toggleRecording] using h
      | false => cases r <;> simp [step, toggleRecording]
  | startWorker =>
      cases d with
      | true => simpa [step, startRecordingWorker] using h
      | false => simp [step, startRecordingWorker]
  | stopWorker => simpa [step, stopRecordingWorker] using h
  | finalText t => simp [step, onFinalText_fst]
  | togglePaste => simpa [step, toggleAutoPaste] using h
  | recorderReady => simpa [step, recorderReadyEvent] using h

lemma foldl_mutex (evs : List Ev) (s : CtrlState)
    (h : s.isRecording = false ∨ s.isProcessing = false) :
    (evs.foldl step s).isRecording = false ∨
      (evs.foldl step s).isProcessing = false := by
  induction evs generalizing s with
  | nil => simpa using h
  | cons e rest ih => exact ih (step s e) (step_mutex s e h)

lemma lastN_length (n : Nat) (l : List α) :
    (lastN n l).length = l.length - (l.length - n) := by
  simp [lastN]

lemma dequeAppend_lastN (n : Nat) (l : List α) (x : α) :
    dequeAppend n (lastN n l) x = lastN n (l ++ [x]) := by
  have hlen2 : (lastN n l ++ [x]).length = (l.length - (l.length - n)) + 1 := by
    simp [lastN]
  unfold dequeAppend
  rcases Nat.lt_or_ge l.length n with hA | hB
  · have hcond : ¬ (n < (lastN n l ++ [x]).length) := by omega
    rw [if_neg hcond]
    unfold lastN
    have h0 : l.length - n = 0 := by omega
    have h1 : (l ++ [x]).length - n = 0 := by simp; omega
    rw [h0, h1, List.drop_zero, List.drop_zero]
  · have hcond : n < (lastN n l ++ [x]).length := by omega
    rw [if_pos hcond]
    have hd : (lastN n l ++ [x]).length - n = 1 := by omega
    rw [hd]
    rcases Nat.eq_zero_or_pos n with h0 | hpos
    · subst h0
      unfold lastN
      simp
    · have hlend : 1 ≤ (lastN n l).length := by
        rw [lastN_length]; omega
      rw [List.drop_append_of_le_length hlend]
      unfold lastN
      rw [List.drop_drop]
      have harith : l.length - n + 1 = (l ++ [x]).length - n := by simp; omega
      rw [harith, List.drop_append_of_le_length (by simp; omega)]

lemma foldl_dequeAppend (n : Nat) (xs : List α) :
    ∀ l : List α, List.foldl (dequeAppend n) (lastN n l) xs = lastN n (l ++ xs) := by
  induction xs with
  | nil => intro l; simp
  | cons x rest ih =>
      intro l
      rw [List.foldl_cons, dequeAppend_lastN, ih (l ++ [x])]
      simp

lemma tsShape_length (ts : List Char) (h : tsShape ts = true) :
    ts.length = 19 := by
  unfold tsShape at h
  split at h
  · simp
  · cases h

lemma rstripNewlines_append_of_ne (l text : List Char) (hne : text ≠ [])
    (hnl : text.any (· == '\n') = false) :
    rstripNewlines (l ++ text) = l ++ text := by
  obtain ⟨y, ys, hrev⟩ :=
    List.exists_cons_of_ne_nil (show text.reverse ≠ [] by simp [hne])
  have hy : y ∈ text := by
    rw [← List.mem_reverse, hrev]
    exact List.mem_cons_self y ys
  have hyn : (y == '\n') = false := by
    simpa using List.any_eq_false.1 hnl y hy
  unfold rstripNewlines
  rw [List.reverse_append, hrev, List.cons_append, List.dropWhile_cons,
    if_neg (by simp [hyn]), ← List.cons_append, ← hrev, ← List.reverse_append,
    List.reverse_reverse]

lemma parseHistoryLine_format (ts text : List Char)
    (hts : tsShape ts = true) (hne : text ≠ [])
    (hnl : text.any (· == '\n') = false) :
    parseHistoryLine (formatHistoryLine ts text) = some (ts.drop 11, text) := by
  have hlen : ts.length = 19 := tsShape_length ts hts
  have hr : rstripNewlines (formatHistoryLine ts text) = formatHistoryLine ts text := by
    have h2 : formatHistoryLine ts text = ('[' :: (ts ++ [']', ' '])) ++ text := by
      simp [formatHistoryLine]
    rw [h2, rstripNewlines_append_of_ne _ text hne hnl, ← h2]
  have hd1 : (formatHistoryLine ts text).drop 1 = ts ++ ']' :: ' ' :: text := rfl
  have hts19 : ((formatHistoryLine ts text).drop 1).take 19 = ts := by
    rw [hd1]
    exact List.take_left' hlen
  have hd19 : (ts ++ ']' :: ' ' :: text).drop 19 = ']' :: ' ' :: text :=
    List.drop_left' hlen
  have hd20 : (formatHistoryLine ts text).drop 20 = ']' :: ' ' :: text := by
    have : (formatHistoryLine ts text).drop 20 = (ts ++ ']' :: ' ' :: text).drop 19 := rfl
    rw [this, hd19]
  have hd22 : (formatHistoryLine ts text).drop 22 = text := by
    have h21 : (formatHistoryLine ts text).drop 22 = (ts ++ ']' :: ' ' :: text).drop 21 := rfl
    rw [h21]
    show List.drop (19 + 2) (ts ++ ']' :: ' ' :: text) = text
    rw [← List.drop_drop, hd19]
    rfl
  have hmatch : matchesHistoryLine (formatHistoryLine ts text) := by
    refine ⟨rfl, ?_, ?_, ?_, ?_⟩
    · rw [hts19]; exact hts
    · rw [hd20]; rfl
    · rw [hd22]; exact hne
    · rw [hd22]; exact hnl
  unfold parseHistoryLine
  rw [hr, if_pos hmatch, hts19, hd22]

/-! ## Claim theorems -/

/-- C1: for every sequence of toggle-recording events, worker runs and
final-text callbacks, the flags `is_recording` and `is_processing` are
never both true at once — at most one logical session is Recording or
Processing at any time. -/
theorem mutual_exclusion_invariant (autoPaste : Bool) (evs : List Ev) :
    ¬((run autoPaste evs).isRecording = true ∧
      (run autoPaste evs).isProcessing = true) := by
  rintro ⟨h1, h2⟩
  rcases foldl_mutex evs (initState autoPaste) (Or.inl rfl) with h | h
  · rw [run] at h1
    rw [h] at h1
    cases h1
  · rw [run] at h2
    rw [h] at h2
    cases h2

/-- C2: while `is_processing` is true, a toggle-recording event is a no-op:
the state is returned unchanged and no worker-spawn (or any other) effect
is produced. -/
theorem toggle_while_processing_noop (s : CtrlState)
    (h : s.isProcessing = true) :
    toggleRecording s = (s, []) := by
  simp [toggleRecording, h]

theorem toggle_while_processing_noop_witness :
    toggleRecording ⟨false, true, true, true⟩ = (⟨false, true, true, true⟩, []) :=
  toggle_while_processing_noop ⟨false, true, true, true⟩ rfl

/-- C3: a toggle from an idle state while the recorder is not ready spawns
a start worker that shows the still-loading message, leaves the overlay
status at IDLE, clears `is_recording`, and never calls `recorder.start()`. -/
theorem not_ready_recording_request (s : CtrlState)
    (hr : s.isRecording = false) (hp : s.isProcessing = false)
    (hready : s.recorderReady = false) :
    ((startRecordingWorker (toggleRecording s).1).1).isRecording = false ∧
    applyStatus .IDLE ((toggleRecording s).2 ++ (startRecordingWorker (toggleRecording s).1).2) = .IDLE ∧
    Effect.engineStart ∉ (toggleRecording s).2 ++ (startRecordingWorker (toggleRecording s).1).2 ∧
    Effect.overlayUpdate (some .stillLoading) none none
      ∈ (toggleRecording s).2 ++ (startRecordingWorker (toggleRecording s).1).2 := by
  simp [toggleRecording, startRecordingWorker, applyStatus, hr, hp, hready]

theorem not_ready_recording_request_witness :
    ((startRecordingWorker (toggleRecording (initState true)).1).1).isRecording = false ∧
    applyStatus .IDLE ((toggleRecording (initState true)).2 ++ (startRecordingWorker (toggleRecording (initState true)).1).2) = .IDLE ∧
    Effect.engineStart ∉ (toggleRecording (initState true)).2 ++ (startRecordingWorker (toggleRecording (initState true)).1).2 ∧
    Effect.overlayUpdate (some .stillLoading) none none
      ∈ (toggleRecording (initState true)).2 ++ (startRecordingWorker (toggleRecording (initState true)).1).2 :=
  not_ready_recording_request (initState true) rfl rfl rfl

/-- C4: an empty or whitespace-only final transcript clears
`is_processing`, shows status IDLE, and produces no history-file append,
no in-memory history push, and no paste — regardless of the prior overlay
status and of the auto-paste flag. -/
theorem empty_final_text_no_output (s : CtrlState) (t : List Char)
    (h : (pyStrip t).isEmpty = true) :
    (onFinalText s t).1.isProcessing = false ∧
    (∀ st, applyStatus st (onFinalText s t).2 = .IDLE) ∧
    (∀ u, Effect.appendHistoryFile u ∉ (onFinalText s t).2) ∧
    (∀ u, Effect.pushHistory u ∉ (onFinalText s t).2) ∧
    (∀ u, Effect.pasteToActiveWindow u ∉ (onFinalText s t).2) := by
  simp [onFinalText, h, applyStatus]

theorem empty_final_text_no_output_witness :
    (onFinalText (initState true) ("  \t ".toList)).1.isProcessing = false ∧
    (∀ st, applyStatus st (onFinalText (initState true) ("  \t ".toList)).2 = .IDLE) ∧
    (∀ u, Effect.appendHistoryFile u ∉ (onFinalText (initState true) ("  \t ".toList)).2) ∧
    (∀ u, Effect.pushHistory u ∉ (onFinalText (initState true) ("  \t ".toList)).2) ∧
    (∀ u, Effect.pasteToActiveWindow u ∉ (onFinalText (initState true) ("  \t ".toList)).2) :=
  empty_final_text_no_output (initState true) ("  \t ".toList) (by decide)

/-- C7: on non-empty stripped final text the dispatcher emits, in order,
the history-file append, the in-memory history push and the IDLE status
update, followed by the paste action exactly when `auto_paste` is true in
the state as it is at dispatch time. -/
theorem dispatch_order_and_paste_flag (s : CtrlState) (t : List Char)
    (h : (pyStrip t).isEmpty = false) :
    (onFinalText s t).2 =
      [.appendHistoryFile (pyStrip t), .pushHistory (pyStrip t),
       .overlayUpdate none (some .IDLE) none]
      ++ (if s.autoPaste then [.pasteToActiveWindow (pyStrip t)] else []) := by
  simp [onFinalText, h]

theorem dispatch_order_and_paste_flag_witness :
    (onFinalText (initState true) ("hi".toList)).2 =
      [.appendHistoryFile (pyStrip ("hi".toList)),
       .pushHistory (pyStrip ("hi".toList)),
       .overlayUpdate none (some .IDLE) none]
      ++ (if (initState true).autoPaste then
            [.pasteToActiveWindow (pyStrip ("hi".toList))] else []) :=
  dispatch_order_and_paste_flag (initState true) ("hi".toList) (by decide)

/-- C5: for every sequence of `add_history` insertions into an initially
empty ring of capacity `cap`, the ring holds exactly the last `cap`
inserted entries in insertion order (so it never exceeds `cap` and the
oldest entries are the ones evicted). -/
theorem history_ring_bounded_fifo (cap : Nat)
    (entries : List (List Char × List Char)) :
    entries.foldl (fun h e => addHistory cap h e.1 e.2) [] = lastN cap entries ∧
    (entries.foldl (fun h e => addHistory cap h e.1 e.2) []).length ≤ cap := by
  have heq : entries.foldl (fun h e => addHistory cap h e.1 e.2) []
      = lastN cap entries := by
    have h0 : ([] : List (List Char × List Char)) = lastN cap [] := by
      simp [lastN]
    calc entries.foldl (fun h e => addHistory cap h e.1 e.2) []
        = entries.foldl (dequeAppend cap) (lastN cap []) := by rw [← h0]; rfl
      _ = lastN cap ([] ++ entries) := foldl_dequeAppend cap entries []
      _ = lastN cap entries := by rw [List.nil_append]
  refine ⟨heq, ?_⟩
  rw [heq, lastN_length]
  omega

/-- C6 counterexample: with `max_items = 0` the claim fails — Python's
`entries[-0:]` is the whole list, so `load_history_file` returns one entry
rather than at most zero. -/
theorem load_history_file_zero_counterexample :
    loadHistoryFile (some ["[2024-01-02 03:04:05] hi".toList]) 0
      = [("03:04:05".toList, "hi".toList)] ∧
    ¬ ((loadHistoryFile (some ["[2024-01-02 03:04:05] hi".toList]) 0).length ≤ 0) := by
  constructor
  · decide
  · decide

/-- C6 (amended to positive `max_items`): for `max_items ≥ 1`,
`load_history_file` returns at most `max_items` pairs, namely the parses of
the last `max_items` matching lines of the file, in file order, each coming
from a line of the file via `HISTORY_LINE_RE`. -/
theorem load_history_file_last_n (lines : List (List Char)) (maxItems : Nat)
    (h : 1 ≤ maxItems) :
    loadHistoryFile (some lines) maxItems
      = lastN maxItems (lines.filterMap parseHistoryLine) ∧
    (loadHistoryFile (some lines) maxItems).length ≤ maxItems ∧
    ∀ e ∈ loadHistoryFile (some lines) maxItems,
      ∃ line ∈ lines, parseHistoryLine line = some e := by
  have hne : maxItems ≠ 0 := by omega
  have heq : loadHistoryFile (some lines) maxItems
      = lastN maxItems (lines.filterMap parseHistoryLine) := by
    simp [loadHistoryFile, pyTailSlice, lastN, hne]
  refine ⟨heq, ?_, ?_⟩
  · rw [heq, lastN_length]
    omega
  · intro e he
    rw [heq] at he
    simp only [lastN] at he
    exact List.mem_filterMap.1 (List.drop_subset _ _ he)

theorem load_history_file_last_n_witness :
    loadHistoryFile (some ["[2024-01-02 03:04:05] a".toList]) 2
      = lastN 2 ((["[2024-01-02 03:04:05] a".toList]).filterMap parseHistoryLine) :=
  (load_history_file_last_n ["[2024-01-02 03:04:05] a".toList] 2 (by decide)).1

/-- C8: appending a non-empty single-line text with
`append_to_history_file` and re-loading with a sufficiently large
`max_items` yields exactly the old entries followed by a final entry whose
text is the original text and whose display timestamp is the `HH:MM:SS`
part (characters 11–18) of the written timestamp. -/
theorem append_then_load_roundtrip (file : List (List Char))
    (ts text : List Char) (maxItems : Nat)
    (hts : tsShape ts = true) (hne : text ≠ [])
    (hnl : text.any (· == '\n') = false)
    (hN : (file.filterMap parseHistoryLine).length < maxItems) :
    loadHistoryFile (appendToHistoryFile (some file) ts text) maxItems
      = file.filterMap parseHistoryLine ++ [(ts.drop 11, text)] ∧
    (loadHistoryFile (appendToHistoryFile (some file) ts text) maxItems).getLast?
      = some (ts.drop 11, text) := by
  have hparse := parseHistoryLine_format ts text hts hne hnl
  have hfm : (file ++ [formatHistoryLine ts text]).filterMap parseHistoryLine
      = file.filterMap parseHistoryLine ++ [(ts.drop 11, text)] := by
    rw [List.filterMap_append]
    simp [hparse]
  have hmne : maxItems ≠ 0 := by omega
  have heq : loadHistoryFile (appendToHistoryFile (some file) ts text) maxItems
      = file.filterMap parseHistoryLine ++ [(ts.drop 11, text)] := by
    show pyTailSlice ((file ++ [formatHistoryLine ts text]).filterMap parseHistoryLine)
        maxItems = _
    rw [hfm]
    unfold pyTailSlice
    rw [if_neg hmne]
    have hz : (file.filterMap parseHistoryLine ++ [(ts.drop 11, text)]).length
        - maxItems = 0 := by
      simp only [List.length_append, List.length_cons, List.length_nil]
      omega
    rw [hz, List.drop_zero]
  exact ⟨heq, by rw [heq]; exact List.getLast?_concat _⟩

theorem append_then_load_roundtrip_witness :
    (loadHistoryFile (appendToHistoryFile (some []) ("2024-01-02 03:04:05".toList)
        ("hello world".toList)) 3).getLast?
      = some (("2024-01-02 03:04:05".toList).drop 11, "hello world".toList) :=
  (append_then_load_roundtrip [] ("2024-01-02 03:04:05".toList)
    ("hello world".toList) 3 (by decide) (by decide) (by decide) (by decide)).2

/-- C9: on a platform other than Windows, `main` exits with code 1 after
only printing the error — it never constructs the application, never
registers hotkeys and never runs the event loop. -/
theorem non_windows_exits_one (p : List Char) (h : p ≠ "Windows".toList) :
    mainProgram p = (1, [.printUnsupported]) ∧
    MainAction.constructApp ∉ (mainProgram p).2 ∧
    MainAction.registerHotkeys ∉ (mainProgram p).2 ∧
    MainAction.runMainLoop ∉ (mainProgram p).2 := by
  have e : mainProgram p = (1, [.printUnsupported]) := by
    unfold mainProgram
    rw [if_pos h]
  refine ⟨e, ?_, ?_, ?_⟩ <;> rw [e] <;> decide

theorem non_windows_exits_one_witness :
    mainProgram ("Linux".toList) = (1, [.printUnsupported]) :=
  (non_windows_exits_one ("Linux".toList) (by decide)).1

/-- C10: when the history file path does not exist, `load_history_file`
returns the empty list for every `max_items`, without touching the file
system (the model's file state is not modified and no exception path
exists). -/
theorem load_history_missing_file (maxItems : Nat) :
    loadHistoryFile none maxItems = [] :=
  rfl

end HotMic
